import Mathlib

/-!
Verification of the agent core of the `topsha` repository.

This file gives a shallow embedding, in Lean 4, of the parts of the program
that the specification claims talk about:

* `core/security.py` — `check_command` (configured blocked patterns followed
  by a fixed built-in dangerous set) together with executable models of the
  four built-in dangerous regexes;
* `core/agent.py` — `trim_history`, the head/tail/marker output truncation,
  and the `run_agent` ReAct loop (session history, blocked-command counter,
  lockout, fatal gateway-error paths);
* `core/tools/bash.py` — `tool_run_command` (security gate, sandbox/local
  execution selection), with execution backends abstracted as oracles and
  every actual command execution recorded as an explicit event.

External regex engines (the configured pattern list, `sanitize_output`,
`clean_response`) are abstracted as function parameters; the four built-in
`DANGEROUS_PATTERNS` regexes are implemented directly over character lists.
Machine integers do not occur on the modelled paths; Python string slicing
corner cases (`s[-0:] = s`) are modelled explicitly.
-/

set_option autoImplicit false

namespace Topsha

/-! ### Security gate (`core/security.py`) -/

/-- Result triple of `check_command`, mirroring the Python return
`(dangerous, blocked, reason)`. -/
structure SecurityDecision where
  dangerous : Bool
  blocked : Bool
  reason : String
deriving DecidableEq, Repr

/-- One record of the externally configured `BLOCKED_PATTERNS` list.
`regexMatches` is the compiled regex search (`re.search(pattern, command, flags)`
succeeds), abstracted as a function; `valid` is false when `re.search` raises
`re.error` for this pattern (the Python loop then skips the record). -/
structure PatternRec where
  regexMatches : String → Bool
  valid : Bool
  reason : String
  admin_bypass : Bool

/-- The configured-pattern loop of `check_command`: skip records with
`admin_bypass=true` for admin users, return the first matching record's
reason, skip records whose regex raises. -/
def checkConfigured (isAdmin : Bool) (command : String) : List PatternRec → Option String
  | [] => none
  | r :: rest =>
    if isAdmin && r.admin_bypass then checkConfigured isAdmin command rest
    else if r.valid && r.regexMatches command then some r.reason
    else checkConfigured isAdmin command rest

/-- Word character of the built-in regexes (`\w`, ASCII fragment). -/
def isWordChar (c : Char) : Bool := c.isAlphanum || c == '_'

/-- Case-insensitive character comparison (`re.IGNORECASE`). -/
def lcEq (a b : Char) : Bool := a.toLower == b.toLower

/-- Consume a literal, case-insensitively; return the remaining input. -/
def takeLitCI : List Char → List Char → Option (List Char)
  | [], s => some s
  | _ :: _, [] => none
  | p :: ps, c :: cs => if lcEq p c then takeLitCI ps cs else none

/-- Consume `\s+` (one or more whitespace characters, maximal munch; the
built-in patterns all follow `\s+` with a non-whitespace character, so
maximal munch is equivalent to backtracking). -/
def takeWsPlus : List Char → Option (List Char)
  | [] => none
  | c :: cs =>
    if c.isWhitespace then some (cs.dropWhile fun d => d.isWhitespace) else none

/-- `\b` before a word character: start of string, or previous char non-word. -/
def boundaryBefore (prev : Option Char) : Bool :=
  match prev with
  | none => true
  | some c => !isWordChar c

/-- `\b` after a word character: end of string, or next char non-word. -/
def boundaryAfter : List Char → Bool
  | [] => true
  | c :: _ => !isWordChar c

/-- `[0-7]`. -/
def isOctDigit (c : Char) : Bool := '0' ≤ c && c ≤ '7'

/-- Match `\brm\s+-rf\b` at the current position (`prev` is the character
just before the position, if any). -/
def rmRfAt (prev : Option Char) (s : List Char) : Bool :=
  boundaryBefore prev &&
    (match takeLitCI ['r', 'm'] s with
     | none => false
     | some s1 =>
       match takeWsPlus s1 with
       | none => false
       | some s2 =>
         match takeLitCI ['-', 'r', 'f'] s2 with
         | none => false
         | some s3 => boundaryAfter s3)

/-- Match `\bchmod\s+[0-7]{3,4}` at the current position (a match exists
iff at least three octal digits follow). -/
def chmodAt (prev : Option Char) (s : List Char) : Bool :=
  boundaryBefore prev &&
    (match takeLitCI ['c', 'h', 'm', 'o', 'd'] s with
     | none => false
     | some s1 =>
       match takeWsPlus s1 with
       | none => false
       | some s2 =>
         match s2 with
         | a :: b :: c :: _ => isOctDigit a && isOctDigit b && isOctDigit c
         | _ => false)

/-- Match `\bchown\b` at the current position. -/
def chownAt (prev : Option Char) (s : List Char) : Bool :=
  boundaryBefore prev &&
    (match takeLitCI ['c', 'h', 'o', 'w', 'n'] s with
     | none => false
     | some s1 => boundaryAfter s1)

/-- Match `\bkill\b` at the current position. -/
def killAt (prev : Option Char) (s : List Char) : Bool :=
  boundaryBefore prev &&
    (match takeLitCI ['k', 'i', 'l', 'l'] s with
     | none => false
     | some s1 => boundaryAfter s1)

/-- `re.search`: try the position matcher at every position of the string
(including the final empty suffix), tracking the preceding character for
word boundaries. -/
def searchAux (patAt : Option Char → List Char → Bool) : Option Char → List Char → Bool
  | prev, [] => patAt prev []
  | prev, c :: cs => patAt prev (c :: cs) || searchAux patAt (some c) cs

/-- `re.search` over a whole string. -/
def reSearch (patAt : Option Char → List Char → Bool) (s : List Char) : Bool :=
  searchAux patAt none s

/-- The `DANGEROUS_PATTERNS` loop: first matching built-in pattern wins,
returning its reason. -/
def dangerousHit (command : String) : Option String :=
  if reSearch rmRfAt command.data then some "Recursive delete"
  else if reSearch chmodAt command.data then some "Permission change"
  else if reSearch chownAt command.data then some "Owner change"
  else if reSearch killAt command.data then some "Process kill"
  else none

/-- `check_command(command, chat_type, is_admin)` from `core/security.py`:
configured patterns first (terminal `blocked`), then the built-in dangerous
set (`blocked` outside private chats, `dangerous` in private chats), else
allowed. -/
def checkCommand (blockedPatterns : List PatternRec) (command : String)
    (chatType : String) (isAdmin : Bool) : SecurityDecision :=
  match checkConfigured isAdmin command blockedPatterns with
  | some reason => ⟨false, true, reason⟩
  | none =>
    match dangerousHit command with
    | some reason =>
      if chatType ≠ "private" then ⟨false, true, "BLOCKED in groups: " ++ reason⟩
      else ⟨true, false, reason⟩
    | none => ⟨false, false, ""⟩

/-! ### History trimmer (`trim_history` in `core/agent.py`) -/

/-- Python `l[-k:]` as used on lists: for `k = 0` the slice is the whole
list, otherwise the last `min k (length l)` elements. -/
def pySliceLast {α : Type} (l : List α) (k : Nat) : List α :=
  if k = 0 then l else l.drop (l.length - k)

/-- `sum(len(json.dumps(m)) for m in history)` with the per-message
serialized size abstracted as `size`. -/
def totalSize {α : Type} (size : α → Nat) (h : List α) : Nat :=
  (h.map size).sum

/-- The `while total > max_chars and len(history) > 2: history.pop(0)` loop. -/
def trimLoop {α : Type} (size : α → Nat) (maxChars : Nat) : List α → List α
  | [] => []
  | m :: rest =>
    if totalSize size (m :: rest) > maxChars ∧ (m :: rest).length > 2 then
      trimLoop size maxChars rest
    else m :: rest

/-- `trim_history(history, max_msgs, max_chars)` from `core/agent.py`. -/
def trim_history {α : Type} (size : α → Nat) (history : List α)
    (maxMsgs maxChars : Nat) : List α :=
  trimLoop size maxChars
    (if history.length > maxMsgs then pySliceLast history maxMsgs else history)

/-! ### Substring search and output truncation -/

/-- Python's `needle in haystack`: does `p` occur (as a contiguous run)
somewhere in the list? -/
def hasSub (p : List Char) : List Char → Bool
  | [] => p.isPrefixOf []
  | c :: l => p.isPrefixOf (c :: l) || hasSub p l

/-- Number of positions at which `p` occurs (overlapping occurrences each
counted once per starting position). -/
def countSub (p : List Char) : List Char → Nat
  | [] => if p.isPrefixOf [] then 1 else 0
  | c :: l => (if p.isPrefixOf (c :: l) then 1 else 0) + countSub p l

/-- The trimmed-marker `"\n\n... [TRIMMED] ...\n\n"` inserted between head
and tail of an oversized output, as a character list. -/
def markerChars : List Char :=
  ['\n', '\n', '.', '.', '.', ' ', '[', 'T', 'R', 'I', 'M', 'M', 'E', 'D',
   ']', ' ', '.', '.', '.', '\n', '\n']

/-- The marker's distinctive token `"[TRIMMED]"`. -/
def trimmedToken : List Char := ['[', 'T', 'R', 'I', 'M', 'M', 'E', 'D', ']']

/-- The output-truncation policy of `core/agent.py` and `core/tools/bash.py`:
if the output exceeds `maxOut` characters, keep
`output[:int(maxOut*0.6)]`, the trimmed-marker, and `output[-int(maxOut*0.3):]`.
The float products `int(maxOut*0.6)` and `int(maxOut*0.3)` coincide with the
integer floors `6*maxOut/10` and `3*maxOut/10`; the Python tail slice
`output[-k:]` with `k = 0` is the whole string (`pySliceLast`). -/
def pyTruncate (maxOut : Nat) (out : List Char) : List Char :=
  if out.length > maxOut then
    out.take (6 * maxOut / 10) ++ markerChars ++ pySliceLast out (3 * maxOut / 10)
  else out

/-- String wrapper of `pyTruncate`. -/
def pyTruncateStr (maxOut : Nat) (s : String) : String :=
  String.mk (pyTruncate maxOut s.data)

/-- `"BLOCKED" in error` from the agent loop's blocked-command tracking. -/
def containsBLOCKED (s : String) : Bool :=
  hasSub ['B', 'L', 'O', 'C', 'K', 'E', 'D'] s.data

/-! ### Tool types (`core/models.py`) -/

/-- `ToolResult` from `core/models.py` (defaults `output=""`, `error=""`). -/
structure ToolResult where
  success : Bool
  output : String
  error : String
deriving DecidableEq, Repr

/-- `ToolContext` from `core/models.py`. -/
structure ToolContext where
  cwd : String
  sessionId : String
  userId : Int
  chatId : Int
  chatType : String
  source : String
  isAdmin : Bool
deriving DecidableEq, Repr

/-! ### Shell-command tool (`core/tools/bash.py`) -/

/-- Outcome of the local-subprocess fallback: wall-clock timeout, normal
completion (with return code and captured stdout/stderr), or a raised
exception. -/
inductive LocalOutcome where
  | timedOut
  | completed (returncode : Int) (stdout : String) (stderr : String)
  | raised (msg : String)

/-- Execution backends of `tool_run_command`, as oracles: `sandboxExec`
models `execute_in_sandbox(user_id, command, cwd)` returning
`(success, output, sandboxed)`; `localExec` models the
`asyncio.create_subprocess_shell` fallback. -/
structure ExecEnv where
  sandboxEnabled : Bool
  sandboxExec : String → String → String → Bool × String × Bool
  localExec : String → String → LocalOutcome

/-- A command execution that actually happened (used to state that blocked
and dangerous commands are never executed). -/
inductive ExecEvent where
  | sandboxRun (userId command cwd : String)
  | localRun (command cwd : String)
deriving DecidableEq, Repr

/-- The local-execution tail of `tool_run_command`: timeout failure,
exception failure, or sanitize + truncate with non-zero exit codes mapped
to failures. -/
def localRunResult (env : ExecEnv) (sanitize : String → String)
    (maxToolOutput : Nat) (command cwd : String) : ToolResult :=
  match env.localExec command cwd with
  | .timedOut => ⟨false, "", "Command timed out"⟩
  | .raised msg => ⟨false, "", msg⟩
  | .completed rc stdout stderr =>
    let output := if stdout ≠ "" then stdout else stderr
    let out2 := pyTruncateStr maxToolOutput (sanitize output)
    if rc ≠ 0 then ⟨false, "", "Exit " ++ toString rc ++ ": " ++ out2⟩
    else ⟨true, (if out2 = "" then "(empty output)" else out2), ""⟩

/-- `tool_run_command(args, ctx)` from `core/tools/bash.py`, with the
command string already extracted from `args`. Returns the `ToolResult`
together with the list of command executions that took place
(`sanitize_output` is abstracted as `sanitize`; `mark_user_active` has no
observable effect on the result). -/
def toolRunCommand (bp : List PatternRec) (env : ExecEnv)
    (sanitize : String → String) (maxToolOutput : Nat)
    (command : String) (ctx : ToolContext) : ToolResult × List ExecEvent :=
  if command = "" then (⟨false, "", "No command provided"⟩, [])
  else
    let d := checkCommand bp command ctx.chatType ctx.isAdmin
    if d.blocked then (⟨false, "", "🚫 BLOCKED: " ++ d.reason⟩, [])
    else if d.dangerous then
      (⟨false, "", "⚠️ Dangerous: " ++ d.reason ++ ". Approval not implemented."⟩, [])
    else
      let userId := toString ctx.userId
      if env.sandboxEnabled then
        match env.sandboxExec userId command ctx.cwd with
        | (success, output, sandboxed) =>
          if sandboxed then
            let out2 := pyTruncateStr maxToolOutput (sanitize output)
            if success then
              (⟨true, (if out2 = "" then "(empty output)" else out2), ""⟩,
               [.sandboxRun userId command ctx.cwd])
            else
              (⟨false, "", out2⟩, [.sandboxRun userId command ctx.cwd])
          else
            (localRunResult env sanitize maxToolOutput command ctx.cwd,
             [.sandboxRun userId command ctx.cwd, .localRun command ctx.cwd])
      else
        (localRunResult env sanitize maxToolOutput command ctx.cwd,
         [.localRun command ctx.cwd])

/-! ### Agent loop (`run_agent` in `core/agent.py`)

The model gateway and the tool registry are oracles indexed by call order.
The assistant message delivered by the `llm` oracle carries its effective
`content` and `tool_calls`, i.e. the message as it stands after the
reasoning-recovery stage of the loop (which only rewrites those two fields
of the message using external regex/JSON machinery and no session state).
`clean_response` (external regex stripping of thinking/XML artifacts) is
abstracted as a parameter; it is applied only on the normal completion
path, after the fatal paths have already returned. -/

/-- A `tool_calls` entry of an assistant message. -/
structure ToolCall where
  id : String
  name : String
  arguments : String
deriving DecidableEq, Repr

/-- A message of the running list / session history. Assistant messages use
`toolCalls`; tool messages use `toolCallId`; both are empty elsewhere. -/
structure Msg where
  role : String
  content : String
  toolCalls : List ToolCall
  toolCallId : String
deriving DecidableEq, Repr

/-- `len(json.dumps(m))` for a plain `{"role": r, "content": c}` message
whose strings are ASCII without JSON escapes: 27 fixed characters plus the
two field values. Used to instantiate the abstract size parameter on
concrete inputs. -/
def msgJsonSize (m : Msg) : Nat := 27 + m.role.length + m.content.length

/-- One reply of the model gateway (`call_llm`): an error dictionary
(non-200 status, network failure, or missing proxy), a 200 reply with an
empty `choices` list, or the first choice's assistant message. -/
inductive LLMResult where
  | llmError (msg : String)
  | noChoices
  | assistant (content : String) (toolCalls : List ToolCall)

/-- Observable events of one run, in chronological order: a model-gateway
call, or a tool result that signalled a security block (the
`session.blocked_count` increment). -/
inductive AgentEvent where
  | gatewayCall
  | blockedHit
deriving DecidableEq, Repr

/-- Number of blocked-command hits in a trace. -/
def countHits : List AgentEvent → Nat
  | [] => 0
  | .blockedHit :: r => countHits r + 1
  | .gatewayCall :: r => countHits r

/-- Configuration values of `core/config.py` used by the loop. -/
structure AgentConfig where
  maxIterations : Nat
  maxBlockedCommands : Nat
  maxToolOutput : Nat
  maxContextMessages : Nat
  maxHistory : Nat
deriving DecidableEq, Repr

/-- Mutable state of one run: the running message list, the session's
blocked-command counter, oracle indices, executed-iteration count, and the
event trace. -/
structure LoopSt where
  messages : List Msg
  blocked : Nat
  llmIdx : Nat
  toolIdx : Nat
  iter : Nat
  trace : List AgentEvent

/-- Result of the per-turn tool-call loop: lockout, or continue. -/
inductive ToolPhase where
  | lockedP (st : LoopSt)
  | contP (st : LoopSt)

/-- Result of the iteration loop. -/
inductive LoopOut where
  | gatewayError (e : String) (st : LoopSt)
  | noChoice (st : LoopSt)
  | lockedOut (st : LoopSt)
  | finished (content : String) (st : LoopSt)

/-- The lockout message returned when `blocked_count` reaches
`max_blocked_commands`. -/
def lockoutMsg : String :=
  "🚫 Session locked due to repeated security violations. /clear to reset."

/-- Content of the `tool` message fed back to the model:
`(output or "(empty)")` on success, `"Error: " + (error or "Unknown error")`
on failure. -/
def toolOutputString (tr : ToolResult) : String :=
  if tr.success then (if tr.output = "" then "(empty)" else tr.output)
  else "Error: " ++ (if tr.error = "" then "Unknown error" else tr.error)

/-- Append the (truncated) tool-result message to the running list. -/
def appendToolMsg (cfg : AgentConfig) (st : LoopSt) (tc : ToolCall)
    (tr : ToolResult) : LoopSt :=
  let output := pyTruncateStr cfg.maxToolOutput (toolOutputString tr)
  { st with messages := st.messages ++ [⟨"tool", output, [], tc.id⟩] }

/-- The `for tc in tool_calls` body: execute each call sequentially; on a
security-blocked result increment the counter and, at the threshold,
terminate the whole run; otherwise append the tool message and continue. -/
def processToolCalls (cfg : AgentConfig) (tool : Nat → ToolResult) :
    List ToolCall → LoopSt → ToolPhase
  | [], st => .contP st
  | tc :: rest, st =>
    let tr := tool st.toolIdx
    let st1 : LoopSt := { st with toolIdx := st.toolIdx + 1 }
    if !tr.success && containsBLOCKED tr.error then
      let st2 : LoopSt :=
        { st1 with blocked := st1.blocked + 1, trace := st1.trace ++ [.blockedHit] }
      if st2.blocked ≥ cfg.maxBlockedCommands then .lockedP st2
      else processToolCalls cfg tool rest (appendToolMsg cfg st2 tc tr)
    else processToolCalls cfg tool rest (appendToolMsg cfg st1 tc tr)

/-- The `while iteration < max_iterations` loop: call the gateway, abort on
error or empty choices, append the assistant message, then either finish
(no tool calls) or run the tool calls and iterate. -/
def agentLoop (cfg : AgentConfig) (llm : Nat → LLMResult)
    (tool : Nat → ToolResult) : Nat → LoopSt → LoopOut
  | 0, st => .finished "" st
  | fuel + 1, st =>
    let stA : LoopSt :=
      { st with iter := st.iter + 1, llmIdx := st.llmIdx + 1,
                trace := st.trace ++ [.gatewayCall] }
    match llm st.llmIdx with
    | .llmError e => .gatewayError e stA
    | .noChoices => .noChoice stA
    | .assistant content tcs =>
      let stB : LoopSt :=
        { stA with messages := stA.messages ++ [⟨"assistant", content, tcs, ""⟩] }
      match tcs with
      | [] => .finished content stB
      | tc :: more =>
        match processToolCalls cfg tool (tc :: more) stB with
        | .lockedP st2 => .lockedOut st2
        | .contP st2 => agentLoop cfg llm tool fuel st2

/-- Python `content.split('\n')[0][:100]`. -/
def firstLine (s : String) : String := ((s.splitOn "\n").headD "").take 100

/-- The post-loop fallback: when the run did work but produced no final
content, synthesize a terse acknowledgement from the successful tool
outputs found in the running list. -/
def fallbackSummary (msgs : List Msg) : String :=
  let outs := msgs.filterMap fun mm =>
    if mm.role == "tool" && mm.content != "" && !(mm.content.startsWith "Error:") then
      let fl := firstLine mm.content
      if fl != "" && fl != "(empty)" then some fl else none
    else none
  match outs with
  | [] => ""
  | _ :: _ => if outs.length == 1 then "Готово! " ++ outs.getLastD "" else "✅ Готово"

/-- Per-(user,chat) session state relevant to one run. -/
structure AgentSession where
  history : List Msg
  blockedCount : Nat
deriving DecidableEq, Repr

/-- Which exit a run took. -/
inductive RunKind where
  | gatewayErrorK
  | noChoicesK
  | lockedK
  | finishedK
deriving DecidableEq, Repr

/-- Result of `run_agent`: the returned text, the persisted session fields
after the run, the event trace, and the exit kind. -/
structure RunOut where
  response : String
  history : List Msg
  blockedCount : Nat
  trace : List AgentEvent
  kind : RunKind

/-- `run_agent(user_id, chat_id, message, ...)` from `core/agent.py`:
build the bounded context, run the iteration loop, and on normal completion
apply the fallback summary, persist `(user, assistant)` to the session
history and re-trim it. The fatal paths (gateway error, empty choices,
lockout) return before the save-to-history code runs. -/
def runAgent (cfg : AgentConfig) (msgSize : Msg → Nat)
    (cleanResp : String → String) (llm : Nat → LLMResult)
    (tool : Nat → ToolResult) (session : AgentSession)
    (systemContent userMessage : String) : RunOut :=
  let userMsg : Msg := ⟨"user", userMessage, [], ""⟩
  let sysMsg : Msg := ⟨"system", systemContent, [], ""⟩
  let msgs := sysMsg ::
    trim_history msgSize (session.history ++ [userMsg]) cfg.maxContextMessages 50000
  let st0 : LoopSt := ⟨msgs, session.blockedCount, 0, 0, 0, []⟩
  match agentLoop cfg llm tool cfg.maxIterations st0 with
  | .gatewayError e st =>
    ⟨"Error: " ++ e, session.history, st.blocked, st.trace, .gatewayErrorK⟩
  | .noChoice st =>
    ⟨"No response from model", session.history, st.blocked, st.trace, .noChoicesK⟩
  | .lockedOut st =>
    ⟨lockoutMsg, session.history, st.blocked, st.trace, .lockedK⟩
  | .finished content st =>
    let finalResponse :=
      if content = "" ∧ st.iter > 1 then fallbackSummary st.messages else content
    let hist1 := session.history ++ [userMsg] ++
      (if finalResponse ≠ "" then [⟨"assistant", finalResponse, [], ""⟩] else [])
    let hist2 := trim_history msgSize hist1 (cfg.maxHistory * 2) 30000
    let cleaned := cleanResp finalResponse
    ⟨(if cleaned = "" then "(no response)" else cleaned), hist2, st.blocked,
     st.trace, .finishedK⟩

/-! ## Theorems -/

/-! ### Lemmas about the configured-pattern loop -/

/-- A non-bypassable valid matching record somewhere in the list forces the
configured loop to return a reason. -/
theorem checkConfigured_isSome_of_match (admin : Bool) (cmd : String)
    (r : PatternRec) (hb : r.admin_bypass = false) (hv : r.valid = true)
    (hm : r.regexMatches cmd = true) :
    ∀ bp : List PatternRec, r ∈ bp →
      ∃ reason, checkConfigured admin cmd bp = some reason := by
  intro bp
  induction bp with
  | nil => intro h; cases h
  | cons r0 rest ih =>
    intro hmem
    rcases List.mem_cons.mp hmem with heq | hmem'
    · subst heq
      refine ⟨r.reason, ?_⟩
      simp [checkConfigured, hb, hv, hm]
    · by_cases h1 : (admin && r0.admin_bypass) = true
      · obtain ⟨reason, hr⟩ := ih hmem'
        exact ⟨reason, by simp [checkConfigured, h1, hr]⟩
      · by_cases h2 : (r0.valid && r0.regexMatches cmd) = true
        · exact ⟨r0.reason, by simp [checkConfigured, h1, h2]⟩
        · obtain ⟨reason, hr⟩ := ih hmem'
          exact ⟨reason, by simp [checkConfigured, h1, h2, hr]⟩

/-- If no record of the list both compiles and matches the command, the
configured loop falls through. -/
theorem checkConfigured_eq_none_of_no_match (admin : Bool) (cmd : String) :
    ∀ bp : List PatternRec,
      (∀ r ∈ bp, ¬(r.valid = true ∧ r.regexMatches cmd = true)) →
      checkConfigured admin cmd bp = none := by
  intro bp
  induction bp with
  | nil => intro _; rfl
  | cons r0 rest ih =>
    intro h
    have h0 : (r0.valid && r0.regexMatches cmd) = false := by
      cases hv : r0.valid
      · simp
      · cases hm : r0.regexMatches cmd
        · simp
        · exact absurd ⟨hv, hm⟩ (h r0 (List.mem_cons_self _ _))
    have hrest := ih fun r hr => h r (List.mem_cons_of_mem _ hr)
    by_cases h1 : (admin && r0.admin_bypass) = true
    · simp [checkConfigured, h1, hrest]
    · simp [checkConfigured, h1, h0, hrest]

/-- For an admin, if every valid matching record is bypassable, the
configured loop falls through. -/
theorem checkConfigured_eq_none_of_all_bypass (cmd : String) :
    ∀ bp : List PatternRec,
      (∀ r ∈ bp, r.valid = true → r.regexMatches cmd = true → r.admin_bypass = true) →
      checkConfigured true cmd bp = none := by
  intro bp
  induction bp with
  | nil => intro _; rfl
  | cons r0 rest ih =>
    intro h
    have hrest := ih fun r hr => h r (List.mem_cons_of_mem _ hr)
    by_cases hb : r0.admin_bypass = true
    · simp [checkConfigured, hb, hrest]
    · have h0 : (r0.valid && r0.regexMatches cmd) = false := by
        cases hv : r0.valid
        · simp
        · cases hm : r0.regexMatches cmd
          · simp
          · exact absurd (h r0 (List.mem_cons_self _ _) hv hm) hb
      simp [checkConfigured, hb, h0, hrest]

/-- C7: for every input triple, the `SecurityDecision` returned by
`check_command` is in exactly one of the three states: allowed
(`dangerous=false, blocked=false`), dangerous (`dangerous=true,
blocked=false`), or blocked (`dangerous=false, blocked=true`); in particular
`dangerous` and `blocked` are never both true. -/
theorem C7_decision_tristate (bp : List PatternRec) (cmd chatType : String)
    (admin : Bool) :
    ((checkCommand bp cmd chatType admin).dangerous = false ∧
      (checkCommand bp cmd chatType admin).blocked = false) ∨
    ((checkCommand bp cmd chatType admin).dangerous = true ∧
      (checkCommand bp cmd chatType admin).blocked = false) ∨
    ((checkCommand bp cmd chatType admin).dangerous = false ∧
      (checkCommand bp cmd chatType admin).blocked = true) := by
  unfold checkCommand
  cases checkConfigured admin cmd bp with
  | some reason => simp
  | none =>
    cases dangerousHit cmd with
    | some reason =>
      by_cases hct : chatType ≠ "private" <;> simp [hct]
    | none => simp

/-- C3: a command matched by the built-in dangerous set and by no configured
pattern is blocked (never dangerous) outside private chats, and dangerous
(never blocked) in private chats, with the corresponding reasons. -/
theorem C3_builtin_dangerous_split (bp : List PatternRec) (cmd : String)
    (admin : Bool) (r : String)
    (h1 : ∀ p ∈ bp, ¬(p.valid = true ∧ p.regexMatches cmd = true))
    (h2 : dangerousHit cmd = some r) :
    (∀ chatType, chatType ≠ "private" →
      checkCommand bp cmd chatType admin =
        ⟨false, true, "BLOCKED in groups: " ++ r⟩) ∧
    checkCommand bp cmd "private" admin = ⟨true, false, r⟩ := by
  have hnone := checkConfigured_eq_none_of_no_match admin cmd bp h1
  constructor
  · intro chatType hct
    unfold checkCommand
    rw [hnone, h2]
    simp [hct]
  · unfold checkCommand
    rw [hnone, h2]
    simp

/-- C3 witness: `"rm -rf /"` with no configured patterns is blocked in a
group chat and dangerous (not blocked) in a private chat. -/
theorem C3_builtin_dangerous_split_witness :
    checkCommand [] "rm -rf /" "group" false =
      ⟨false, true, "BLOCKED in groups: Recursive delete"⟩ ∧
    checkCommand [] "rm -rf /" "private" false = ⟨true, false, "Recursive delete"⟩ := by
  have h := C3_builtin_dangerous_split [] "rm -rf /" false "Recursive delete"
    (by intro p hp; cases hp) (by decide)
  exact ⟨h.1 "group" (by decide), h.2⟩

/-- C2 counterexample: a command matching a blocked pattern with
`admin_bypass=true` while `is_admin=true` does not in general give
`blocked=false` — a second, non-bypassable configured record that also
matches still blocks the command. -/
theorem C2_counterexample :
    (PatternRec.admin_bypass ⟨fun _ => true, true, "r0", true⟩ = true ∧
      PatternRec.regexMatches ⟨fun _ => true, true, "r0", true⟩ "ls" = true) ∧
    (checkCommand [⟨fun _ => true, true, "r0", true⟩,
        ⟨fun _ => true, true, "r1", false⟩] "ls" "private" true).blocked = true := by
  exact ⟨⟨rfl, rfl⟩, rfl⟩

/-- C2 (amended): a configured record with `admin_bypass=false` that matches
makes `check_command` return `blocked=true` regardless of `is_admin`; and for
an admin whose every valid matching configured record is bypassable — so the
bypassable records are skipped entirely — `check_command` returns
`blocked=false` provided the built-in dangerous set does not also block the
command (private chat, or no built-in match). -/
theorem C2_admin_bypass (bp : List PatternRec) (cmd chatType : String) :
    (∀ admin : Bool, ∀ r ∈ bp,
      r.admin_bypass = false → r.valid = true → r.regexMatches cmd = true →
      (checkCommand bp cmd chatType admin).blocked = true) ∧
    ((∀ r ∈ bp, r.valid = true → r.regexMatches cmd = true → r.admin_bypass = true) →
      (chatType = "private" ∨ dangerousHit cmd = none) →
      (checkCommand bp cmd chatType true).blocked = false) := by
  constructor
  · intro admin r hmem hb hv hm
    obtain ⟨reason, hr⟩ := checkConfigured_isSome_of_match admin cmd r hb hv hm bp hmem
    unfold checkCommand
    rw [hr]
  · intro hall hside
    have hnone := checkConfigured_eq_none_of_all_bypass cmd bp hall
    unfold checkCommand
    rw [hnone]
    cases hdh : dangerousHit cmd with
    | none => rfl
    | some reason =>
      rcases hside with hpriv | hno
      · subst hpriv; simp
      · rw [hno] at hdh; cases hdh

/-- C2 witness: with one matching non-bypassable record the command is
blocked even for an admin; with one matching bypassable record and an admin
user it is not blocked. -/
theorem C2_admin_bypass_witness :
    (checkCommand [⟨fun _ => true, true, "cfg", false⟩] "echo hi" "private" true).blocked
      = true ∧
    (checkCommand [⟨fun _ => true, true, "cfg", true⟩] "echo hi" "private" true).blocked
      = false := by
  constructor
  · exact (C2_admin_bypass [⟨fun _ => true, true, "cfg", false⟩] "echo hi" "private").1
      true _ (List.mem_cons_self _ _) rfl rfl rfl
  · exact (C2_admin_bypass [⟨fun _ => true, true, "cfg", true⟩] "echo hi" "private").2
      (by intro r hr _ _; rcases List.mem_cons.mp hr with h | h
          · subst h; rfl
          · cases h)
      (Or.inl rfl)

/-! ### Lemmas about the history trimmer -/

/-- The drop loop never lengthens the list. -/
theorem trimLoop_length_le {α : Type} (size : α → Nat) (maxChars : Nat) :
    ∀ l : List α, (trimLoop size maxChars l).length ≤ l.length := by
  intro l
  induction l with
  | nil => simp [trimLoop]
  | cons m rest ih =>
    by_cases h : totalSize size (m :: rest) > maxChars ∧ (m :: rest).length > 2
    · simp only [trimLoop, if_pos h]
      exact le_trans ih (Nat.le_succ _)
    · simp only [trimLoop, if_neg h]
      exact Nat.le_refl _

/-- The drop loop's postcondition: its result is within the character budget
or has at most two entries. -/
theorem trimLoop_post {α : Type} (size : α → Nat) (maxChars : Nat) :
    ∀ l : List α,
      ¬(totalSize size (trimLoop size maxChars l) > maxChars ∧
        (trimLoop size maxChars l).length > 2) := by
  intro l
  induction l with
  | nil => simp [trimLoop, totalSize]
  | cons m rest ih =>
    by_cases h : totalSize size (m :: rest) > maxChars ∧ (m :: rest).length > 2
    · simpa only [trimLoop, if_pos h] using ih
    · simp only [trimLoop, if_neg h]
      exact h

/-- A list already satisfying the loop's exit condition is a fixed point. -/
theorem trimLoop_fix {α : Type} (size : α → Nat) (maxChars : Nat)
    (l : List α)
    (h : ¬(totalSize size l > maxChars ∧ l.length > 2)) :
    trimLoop size maxChars l = l := by
  cases l with
  | nil => rfl
  | cons m rest => simp only [trimLoop, if_neg h]

/-- The drop loop keeps at least two entries when it starts with at least
two. -/
theorem trimLoop_min_len {α : Type} (size : α → Nat) (maxChars : Nat) :
    ∀ l : List α, 2 ≤ l.length → 2 ≤ (trimLoop size maxChars l).length := by
  intro l
  induction l with
  | nil => intro h; exact h
  | cons m rest ih =>
    intro h2
    by_cases h : totalSize size (m :: rest) > maxChars ∧ (m :: rest).length > 2
    · simp only [trimLoop, if_pos h]
      apply ih
      have h3 := h.2
      simp only [List.length_cons] at h3
      omega
    · simpa only [trimLoop, if_neg h] using h2

/-- Length of the first-stage slice: at most `maxMsgs` when `maxMsgs ≥ 1`. -/
theorem trimStage1_length_le {α : Type} (history : List α) (maxMsgs : Nat)
    (hμ : 1 ≤ maxMsgs) :
    (if history.length > maxMsgs then pySliceLast history maxMsgs
     else history).length ≤ maxMsgs := by
  by_cases h : history.length > maxMsgs
  · simp only [if_pos h, pySliceLast, if_neg (by omega : ¬maxMsgs = 0),
      List.length_drop]
    omega
  · simp only [if_neg h]
    omega

/-- The first-stage slice is the identity when `maxMsgs = 0` (Python
`l[-0:] = l`) or when the list is already short enough. -/
theorem trimStage1_id {α : Type} (l : List α) (maxMsgs : Nat)
    (h : maxMsgs = 0 ∨ l.length ≤ maxMsgs) :
    (if l.length > maxMsgs then pySliceLast l maxMsgs else l) = l := by
  rcases h with h0 | hle
  · subst h0
    by_cases h : l.length > 0
    · simp [pySliceLast, if_pos h]
    · simp only [if_neg h]
  · rw [if_neg (by omega)]

/-- The trimmed history is within the budget or has at most two entries
(`trim_history` is definitionally `trimLoop` of the first-stage slice). -/
theorem trim_history_post {α : Type} (size : α → Nat) (H : List α)
    (maxMsgs maxChars : Nat) :
    ¬(totalSize size (trim_history size H maxMsgs maxChars) > maxChars ∧
      (trim_history size H maxMsgs maxChars).length > 2) :=
  trimLoop_post size maxChars _

/-- The trimmed history has at most `maxMsgs` entries when `maxMsgs ≥ 1`. -/
theorem trim_history_length_le {α : Type} (size : α → Nat) (H : List α)
    (maxMsgs maxChars : Nat) (hμ : 1 ≤ maxMsgs) :
    (trim_history size H maxMsgs maxChars).length ≤ maxMsgs :=
  le_trans (trimLoop_length_le size maxChars _) (trimStage1_length_le H maxMsgs hμ)

/-- C8: `trim_history` is idempotent — applying it twice with the same
budgets gives the same result as applying it once. -/
theorem C8_trim_idempotent {α : Type} (size : α → Nat) (H : List α)
    (maxMsgs maxChars : Nat) :
    trim_history size (trim_history size H maxMsgs maxChars) maxMsgs maxChars =
      trim_history size H maxMsgs maxChars := by
  have hfix : trimLoop size maxChars (trim_history size H maxMsgs maxChars) =
      trim_history size H maxMsgs maxChars :=
    trimLoop_fix size maxChars _ (trim_history_post size H maxMsgs maxChars)
  have hstage :
      (if (trim_history size H maxMsgs maxChars).length > maxMsgs then
        pySliceLast (trim_history size H maxMsgs maxChars) maxMsgs
       else trim_history size H maxMsgs maxChars) =
        trim_history size H maxMsgs maxChars := by
    apply trimStage1_id
    rcases Nat.eq_zero_or_pos maxMsgs with h0 | h1
    · exact Or.inl h0
    · exact Or.inr (trim_history_length_le size H maxMsgs maxChars h1)
  calc
    trim_history size (trim_history size H maxMsgs maxChars) maxMsgs maxChars
        = trimLoop size maxChars
            (if (trim_history size H maxMsgs maxChars).length > maxMsgs then
              pySliceLast (trim_history size H maxMsgs maxChars) maxMsgs
             else trim_history size H maxMsgs maxChars) := rfl
    _ = trimLoop size maxChars (trim_history size H maxMsgs maxChars) := by
          rw [hstage]
    _ = trim_history size H maxMsgs maxChars := hfix

/-- C5 counterexample: with `max_messages = 1` the first-stage slice keeps a
single oversized entry, so the result neither fits the budget nor has
exactly 2 entries, and an input of length ≥ 2 shrinks below 2 entries. -/
theorem C5_counterexample :
    totalSize msgJsonSize
      [⟨"user", "hello", [], ""⟩, ⟨"assistant", "world", [], ""⟩] > 10 ∧
    2 ≤ ([⟨"user", "hello", [], ""⟩, ⟨"assistant", "world", [], ""⟩] : List Msg).length ∧
    ¬(totalSize msgJsonSize
        (trim_history msgJsonSize
          [⟨"user", "hello", [], ""⟩, ⟨"assistant", "world", [], ""⟩] 1 10) ≤ 10 ∨
      (trim_history msgJsonSize
        [⟨"user", "hello", [], ""⟩, ⟨"assistant", "world", [], ""⟩] 1 10).length = 2) ∧
    (trim_history msgJsonSize
      [⟨"user", "hello", [], ""⟩, ⟨"assistant", "world", [], ""⟩] 1 10).length < 2 := by
  decide

/-- C5 (amended): for budgets with `max_messages ≥ 2`, the result of
`trim_history` fits the character budget or has at most 2 entries (exactly 2
when the input has at least 2 entries), and an input with at least 2 entries
never shrinks below 2 entries. -/
theorem C5_trim_bounds {α : Type} (size : α → Nat) (H : List α)
    (maxMsgs maxChars : Nat) (hμ : 2 ≤ maxMsgs) :
    (2 ≤ H.length → 2 ≤ (trim_history size H maxMsgs maxChars).length) ∧
    (totalSize size H > maxChars →
      totalSize size (trim_history size H maxMsgs maxChars) ≤ maxChars ∨
      (trim_history size H maxMsgs maxChars).length ≤ 2) ∧
    (totalSize size H > maxChars → 2 ≤ H.length →
      totalSize size (trim_history size H maxMsgs maxChars) ≤ maxChars ∨
      (trim_history size H maxMsgs maxChars).length = 2) := by
  have hmin : 2 ≤ H.length → 2 ≤ (trim_history size H maxMsgs maxChars).length := by
    intro hH
    apply trimLoop_min_len
    by_cases h : H.length > maxMsgs
    · simp only [if_pos h, pySliceLast, if_neg (by omega : ¬maxMsgs = 0),
        List.length_drop]
      omega
    · simpa only [if_neg h] using hH
  have hpost := trim_history_post size H maxMsgs maxChars
  refine ⟨hmin, fun _ => by omega, fun _ hH => ?_⟩
  have h2 := hmin hH
  omega

/-- C5 witness: three oversized messages with budgets `(2, 5)` trim to
exactly two entries. -/
theorem C5_trim_bounds_witness :
    2 ≤ (trim_history msgJsonSize
      [⟨"user", "a", [], ""⟩, ⟨"assistant", "b", [], ""⟩, ⟨"user", "c", [], ""⟩]
      2 5).length ∧
    (totalSize msgJsonSize
      (trim_history msgJsonSize
        [⟨"user", "a", [], ""⟩, ⟨"assistant", "b", [], ""⟩, ⟨"user", "c", [], ""⟩]
        2 5) ≤ 5 ∨
      (trim_history msgJsonSize
        [⟨"user", "a", [], ""⟩, ⟨"assistant", "b", [], ""⟩, ⟨"user", "c", [], ""⟩]
        2 5).length = 2) := by
  have h := C5_trim_bounds msgJsonSize
    [⟨"user", "a", [], ""⟩, ⟨"assistant", "b", [], ""⟩, ⟨"user", "c", [], ""⟩]
    2 5 (by decide)
  exact ⟨h.1 (by decide), h.2.2 (by decide) (by decide)⟩

/-! ### The shell-tool security gate (C1) -/

/-- C1 counterexample: for the empty command string, `tool_run_command`
returns before the security check, so even when `check_command` classifies
the (empty) command as blocked, the failed result carries
`"No command provided"` rather than the block reason. Execution still never
happens. -/
theorem C1_counterexample :
    (checkCommand [⟨fun _ => true, true, "nope", false⟩] "" "private" false).blocked
      = true ∧
    (toolRunCommand [⟨fun _ => true, true, "nope", false⟩]
        ⟨false, fun _ _ _ => (true, "", true), fun _ _ => .raised "x"⟩
        (fun s => s) 100 "" ⟨"/w", "", 0, 0, "private", "bot", false⟩).1.error
      = "No command provided" ∧
    ¬((toolRunCommand [⟨fun _ => true, true, "nope", false⟩]
        ⟨false, fun _ _ _ => (true, "", true), fun _ _ => .raised "x"⟩
        (fun s => s) 100 "" ⟨"/w", "", 0, 0, "private", "bot", false⟩).1.error
      = "🚫 BLOCKED: " ++
        (checkCommand [⟨fun _ => true, true, "nope", false⟩] "" "private" false).reason) := by
  refine ⟨rfl, rfl, ?_⟩
  decide

/-- C1 (amended): for every nonempty command that `check_command` classifies
as blocked or dangerous, `tool_run_command` returns a failed `ToolResult` —
carrying the block reason, or the "approval not implemented" message for the
dangerous tier — and performs no execution, neither in the sandbox nor as a
local subprocess. (The empty command also fails without executing, but with
a "No command provided" error emitted before the security check.) -/
theorem C1_gate_fails_closed (bp : List PatternRec) (env : ExecEnv)
    (sanitize : String → String) (maxToolOutput : Nat) (command : String)
    (ctx : ToolContext) (hne : command ≠ "")
    (hgate : (checkCommand bp command ctx.chatType ctx.isAdmin).blocked = true ∨
      (checkCommand bp command ctx.chatType ctx.isAdmin).dangerous = true) :
    (toolRunCommand bp env sanitize maxToolOutput command ctx).1.success = false ∧
    (toolRunCommand bp env sanitize maxToolOutput command ctx).2 = [] ∧
    ((checkCommand bp command ctx.chatType ctx.isAdmin).blocked = true →
      (toolRunCommand bp env sanitize maxToolOutput command ctx).1.error =
        "🚫 BLOCKED: " ++ (checkCommand bp command ctx.chatType ctx.isAdmin).reason) ∧
    ((checkCommand bp command ctx.chatType ctx.isAdmin).blocked = false →
      (toolRunCommand bp env sanitize maxToolOutput command ctx).1.error =
        "⚠️ Dangerous: " ++ (checkCommand bp command ctx.chatType ctx.isAdmin).reason ++
          ". Approval not implemented.") := by
  by_cases hb : (checkCommand bp command ctx.chatType ctx.isAdmin).blocked = true
  · have he : toolRunCommand bp env sanitize maxToolOutput command ctx =
        (⟨false, "",
          "🚫 BLOCKED: " ++ (checkCommand bp command ctx.chatType ctx.isAdmin).reason⟩,
         []) := by
      simp [toolRunCommand, hne, hb]
    refine ⟨by rw [he], by rw [he], fun _ => by rw [he], fun hcontra => ?_⟩
    rw [hb] at hcontra
    exact absurd hcontra (by decide)
  · have hd : (checkCommand bp command ctx.chatType ctx.isAdmin).dangerous = true := by
      rcases hgate with h | h
      · exact absurd h hb
      · exact h
    have hb' : (checkCommand bp command ctx.chatType ctx.isAdmin).blocked = false := by
      cases h : (checkCommand bp command ctx.chatType ctx.isAdmin).blocked
      · rfl
      · exact absurd h hb
    have he : toolRunCommand bp env sanitize maxToolOutput command ctx =
        (⟨false, "",
          "⚠️ Dangerous: " ++ (checkCommand bp command ctx.chatType ctx.isAdmin).reason ++
            ". Approval not implemented."⟩, []) := by
      simp [toolRunCommand, hne, hb', hd]
    refine ⟨by rw [he], by rw [he], fun hcontra => ?_, fun _ => by rw [he]⟩
    rw [hb'] at hcontra
    exact absurd hcontra (by decide)

/-- C1 witness: `"rm -rf /"` in a private chat is classified dangerous and
`tool_run_command` fails with the approval message without executing. -/
theorem C1_gate_fails_closed_witness :
    (checkCommand [] "rm -rf /" "private" false).dangerous = true ∧
    (toolRunCommand [] ⟨true, fun _ _ _ => (true, "ok", true), fun _ _ => .raised "x"⟩
        (fun s => s) 100 "rm -rf /" ⟨"/w", "", 0, 0, "private", "bot", false⟩).1.success
      = false ∧
    (toolRunCommand [] ⟨true, fun _ _ _ => (true, "ok", true), fun _ _ => .raised "x"⟩
        (fun s => s) 100 "rm -rf /" ⟨"/w", "", 0, 0, "private", "bot", false⟩).2
      = [] := by
  have h := C1_gate_fails_closed []
    ⟨true, fun _ _ _ => (true, "ok", true), fun _ _ => .raised "x"⟩
    (fun s => s) 100 "rm -rf /" ⟨"/w", "", 0, 0, "private", "bot", false⟩
    (by decide) (Or.inr (by decide))
  exact ⟨by decide, h.1, h.2.1⟩

/-! ### Lemmas about substring occurrence counting (for C6) -/

/-- The empty list is a prefix of everything. -/
theorem nil_isPrefixOf (l : List Char) : List.isPrefixOf [] l = true := by
  cases l <;> rfl

/-- A prefix is no longer than the list. -/
theorem prefixOf_length_le : ∀ s l : List Char,
    s.isPrefixOf l = true → s.length ≤ l.length := by
  intro s
  induction s with
  | nil => intro l _; simp
  | cons a s' ih =>
    intro l h
    cases l with
    | nil => simp [List.isPrefixOf] at h
    | cons b l' =>
      simp only [List.isPrefixOf, Bool.and_eq_true] at h
      simpa using ih l' h.2

/-- A prefix at least as long as the list is a prefix both ways. -/
theorem prefixOf_flip : ∀ s l : List Char,
    s.isPrefixOf l = true → l.length ≤ s.length → l.isPrefixOf s = true := by
  intro s
  induction s with
  | nil =>
    intro l h hl
    cases l with
    | nil => rfl
    | cons b l' => exact absurd hl (by simp)
  | cons a s' ih =>
    intro l h hl
    cases l with
    | nil => rfl
    | cons b l' =>
      simp only [List.isPrefixOf, Bool.and_eq_true, beq_iff_eq] at h ⊢
      refine ⟨h.1.symm, ih l' h.2 ?_⟩
      simpa using hl

/-- Decompose a prefix of an appended list: it fits inside the left part,
or it swallows the left part and its remainder is a prefix of the right. -/
theorem prefixSplit : ∀ g s r : List Char,
    s.isPrefixOf (g ++ r) = true →
    s.isPrefixOf g = true ∨
      (g.isPrefixOf s = true ∧ (s.drop g.length).isPrefixOf r = true) := by
  intro g
  induction g with
  | nil =>
    intro s r h
    right
    exact ⟨nil_isPrefixOf s, by simpa using h⟩
  | cons b g' ih =>
    intro s r h
    cases s with
    | nil => left; rfl
    | cons a s' =>
      simp only [List.cons_append, List.isPrefixOf, Bool.and_eq_true] at h
      rcases ih s' r h.2 with h1 | ⟨h2, h3⟩
      · left
        simp only [List.isPrefixOf, Bool.and_eq_true]
        exact ⟨h.1, h1⟩
      · right
        refine ⟨?_, by simpa using h3⟩
        simp only [List.isPrefixOf, Bool.and_eq_true, beq_iff_eq]
        exact ⟨(beq_iff_eq.mp h.1).symm, h2⟩

/-- A prefix occurs as a substring. -/
theorem hasSub_of_prefixOf (s l : List Char) (h : s.isPrefixOf l = true) :
    hasSub s l = true := by
  cases l with
  | nil => exact h
  | cons c l' => simp [hasSub, h]

/-- A substring of a `take` is a substring of the whole list. -/
theorem prefixOf_take : ∀ (p : List Char) (n : Nat) (l : List Char),
    p.isPrefixOf (l.take n) = true → p.isPrefixOf l = true := by
  intro p
  induction p with
  | nil => intro n l _; exact nil_isPrefixOf l
  | cons a p' ih =>
    intro n l h
    cases l with
    | nil => rw [List.take_nil] at h; exact h
    | cons c l' =>
      cases n with
      | zero => simp [List.isPrefixOf] at h
      | succ n' =>
        simp only [List.take_succ_cons, List.isPrefixOf, Bool.and_eq_true] at h ⊢
        exact ⟨h.1, ih n' l' h.2⟩

/-- Substring occurrence in a `take` implies occurrence in the whole list. -/
theorem hasSub_take (p : List Char) : ∀ (l : List Char) (n : Nat),
    hasSub p (l.take n) = true → hasSub p l = true := by
  intro l
  induction l with
  | nil => intro n h; rw [List.take_nil] at h; exact h
  | cons c l' ih =>
    intro n h
    cases n with
    | zero =>
      rw [List.take_zero] at h
      cases p with
      | nil => simp [hasSub]
      | cons a p' => simp [hasSub, List.isPrefixOf] at h
    | succ n' =>
      rw [List.take_succ_cons] at h
      simp only [hasSub, Bool.or_eq_true] at h ⊢
      rcases h with h | h
      · exact Or.inl (prefixOf_take p (n' + 1) (c :: l') (by simpa using h))
      · exact Or.inr (ih n' h)

/-- Substring occurrence in a `drop` implies occurrence in the whole list. -/
theorem hasSub_drop (p : List Char) : ∀ (n : Nat) (l : List Char),
    hasSub p (l.drop n) = true → hasSub p l = true := by
  intro n
  induction n with
  | zero => intro l h; simpa using h
  | succ n' ih =>
    intro l h
    cases l with
    | nil => simpa using h
    | cons c l' =>
      rw [List.drop_succ_cons] at h
      simp only [hasSub, Bool.or_eq_true]
      exact Or.inr (ih l' h)

/-- A pattern that occurs nowhere is counted zero times. -/
theorem countSub_eq_zero_of_not_hasSub (p : List Char) (hp : p ≠ []) :
    ∀ l : List Char, hasSub p l = false → countSub p l = 0 := by
  intro l
  induction l with
  | nil =>
    intro h
    cases p with
    | nil => exact absurd rfl hp
    | cons a p' => simp [countSub, List.isPrefixOf]
  | cons c l' ih =>
    intro h
    simp only [hasSub, Bool.or_eq_false_iff] at h
    simp only [countSub, h.1, if_neg, Bool.false_eq_true, ite_false, Nat.zero_add]
    exact ih h.2

/-- The token `"[TRIMMED]"` cannot start inside a token-free block `g` that
is followed by the marker: its first characters would have to include the
marker's leading newline, which the token does not contain. -/
theorem tokNoPrefix (g t : List Char) (hg : g ≠ [])
    (hXg : hasSub trimmedToken g = false) :
    trimmedToken.isPrefixOf (g ++ (markerChars ++ t)) = false := by
  cases hp : trimmedToken.isPrefixOf (g ++ (markerChars ++ t)) with
  | false => rfl
  | true =>
    exfalso
    rcases prefixSplit g trimmedToken (markerChars ++ t) hp with h1 | ⟨h2, h3⟩
    · rw [hasSub_of_prefixOf _ _ h1] at hXg
      cases hXg
    · have hk9 : g.length ≤ 9 := by
        have := prefixOf_length_le g trimmedToken h2
        simpa [trimmedToken] using this
      have hk1 : 1 ≤ g.length := by
        cases g with
        | nil => exact absurd rfl hg
        | cons a g' => simp
      have hcases : g.length = 1 ∨ g.length = 2 ∨ g.length = 3 ∨ g.length = 4 ∨
          g.length = 5 ∨ g.length = 6 ∨ g.length = 7 ∨ g.length = 8 ∨
          g.length = 9 := by omega
      rcases hcases with hk | hk | hk | hk | hk | hk | hk | hk | hk
      all_goals rw [hk] at h3
      · simp [trimmedToken, markerChars, List.isPrefixOf] at h3
      · simp [trimmedToken, markerChars, List.isPrefixOf] at h3
      · simp [trimmedToken, markerChars, List.isPrefixOf] at h3
      · simp [trimmedToken, markerChars, List.isPrefixOf] at h3
      · simp [trimmedToken, markerChars, List.isPrefixOf] at h3
      · simp [trimmedToken, markerChars, List.isPrefixOf] at h3
      · simp [trimmedToken, markerChars, List.isPrefixOf] at h3
      · simp [trimmedToken, markerChars, List.isPrefixOf] at h3
      · have h4 := prefixOf_flip g trimmedToken h2 (by simp [trimmedToken]; omega)
        rw [hasSub_of_prefixOf _ _ h4] at hXg
        cases hXg

/-- Peeling a token-free block off the front does not change the token
count of block-plus-marker-plus-tail. -/
theorem countSub_tok_skip : ∀ h t : List Char, hasSub trimmedToken h = false →
    countSub trimmedToken (h ++ (markerChars ++ t)) =
      countSub trimmedToken (markerChars ++ t) := by
  intro h
  induction h with
  | nil => intro t _; rfl
  | cons c h' ih =>
    intro t hX
    simp only [hasSub, Bool.or_eq_false_iff] at hX
    have hnp := tokNoPrefix (c :: h') t (by simp) (by simp [hasSub, hX.1, hX.2])
    rw [List.cons_append]
    simp only [countSub]
    rw [show (c :: (h' ++ (markerChars ++ t))) = (c :: h') ++ (markerChars ++ t) from rfl,
      hnp]
    simp only [Bool.false_eq_true, ite_false, Nat.zero_add]
    exact ih t hX.2

/-- The marker block contributes exactly one token occurrence, at its
interior position, whatever follows it. -/
theorem countSub_tok_marker (t : List Char) :
    countSub trimmedToken (markerChars ++ t) = 1 + countSub trimmedToken t := by
  simp [markerChars, trimmedToken, countSub, List.isPrefixOf]

/-- Exactly one token occurrence in head-marker-tail when head and tail are
token-free. -/
theorem countSub_tok_one (h t : List Char)
    (hh : hasSub trimmedToken h = false) (ht : hasSub trimmedToken t = false) :
    countSub trimmedToken (h ++ markerChars ++ t) = 1 := by
  rw [List.append_assoc, countSub_tok_skip h t hh, countSub_tok_marker t,
    countSub_eq_zero_of_not_hasSub trimmedToken (by simp [trimmedToken]) t ht]

/-- C6 counterexample: an oversized output that itself contains the
trimmed-marker yields a stored message with two occurrences of the marker,
not exactly one. -/
theorem C6_counterexample :
    (markerChars ++ markerChars).length > 40 ∧
    countSub markerChars (pyTruncate 40 (markerChars ++ markerChars)) ≠ 1 := by
  decide

/-- C6 (amended): for every output strictly longer than the budget whose
text does not itself contain `"[TRIMMED]"`, the truncated output is exactly
the first 60% of the budget of the output, then the trimmed-marker, then the
last 30% of the budget of the output, and it contains exactly one occurrence
of the marker token `"[TRIMMED]"`. -/
theorem C6_truncation (maxOut : Nat) (out : List Char)
    (hlen : out.length > maxOut)
    (hX : hasSub trimmedToken out = false) :
    pyTruncate maxOut out =
      out.take (6 * maxOut / 10) ++ markerChars ++
        pySliceLast out (3 * maxOut / 10) ∧
    countSub trimmedToken (pyTruncate maxOut out) = 1 := by
  have heq : pyTruncate maxOut out =
      out.take (6 * maxOut / 10) ++ markerChars ++
        pySliceLast out (3 * maxOut / 10) := by
    simp only [pyTruncate, if_pos hlen]
  refine ⟨heq, ?_⟩
  rw [heq]
  apply countSub_tok_one
  · cases hh : hasSub trimmedToken (out.take (6 * maxOut / 10)) with
    | false => rfl
    | true =>
      rw [hasSub_take trimmedToken out (6 * maxOut / 10) hh] at hX
      cases hX
  · unfold pySliceLast
    by_cases hk : (3 * maxOut / 10) = 0
    · rw [if_pos hk]; exact hX
    · rw [if_neg hk]
      cases hh : hasSub trimmedToken (out.drop (out.length - 3 * maxOut / 10)) with
      | false => rfl
      | true =>
        rw [hasSub_drop trimmedToken (out.length - 3 * maxOut / 10) out hh] at hX
        cases hX

/-- C6 witness: a 20-character marker-free output truncated with budget 10
is head, marker, tail with exactly one `"[TRIMMED]"`. -/
theorem C6_truncation_witness :
    (("abcdefghijklmnopqrst".data).length > 10 ∧
      hasSub trimmedToken ("abcdefghijklmnopqrst".data) = false) ∧
    countSub trimmedToken (pyTruncate 10 ("abcdefghijklmnopqrst".data)) = 1 := by
  exact ⟨by decide,
    (C6_truncation 10 ("abcdefghijklmnopqrst".data) (by decide) (by decide)).2⟩

/-! ### Lemmas about the agent loop (for C4 and C9) -/

/-- State carried by either constructor of `ToolPhase`. -/
def toolPhaseSt : ToolPhase → LoopSt
  | .lockedP st => st
  | .contP st => st

/-- State carried by any constructor of `LoopOut`. -/
def loopOutSt : LoopOut → LoopSt
  | .gatewayError _ st => st
  | .noChoice st => st
  | .lockedOut st => st
  | .finished _ st => st

/-- `countHits` distributes over append. -/
theorem countHits_append : ∀ a b : List AgentEvent,
    countHits (a ++ b) = countHits a + countHits b := by
  intro a b
  induction a with
  | nil => simp [countHits]
  | cons e a' ih =>
    cases e with
    | gatewayCall => simpa [countHits] using ih
    | blockedHit => simp [countHits, ih]; omega

/-- The last element of a list with one appended element. -/
theorem getLast_append_one {α : Type} (l : List α) (a : α) :
    (l ++ [a]).getLast? = some a :=
  List.getLast?_concat l

/-- Invariants of the per-turn tool-call loop, starting strictly below the
lockout threshold: the blocked counter grows by exactly the number of
blocked-hit events appended to the trace; a lockout result carries a counter
exactly at the threshold and a trace whose last event is the blocked hit;
and a continue result stays strictly below the threshold. -/
theorem ptc_spec (cfg : AgentConfig) (tool : Nat → ToolResult) :
    ∀ (tcs : List ToolCall) (st : LoopSt), st.blocked < cfg.maxBlockedCommands →
    ((toolPhaseSt (processToolCalls cfg tool tcs st)).blocked + countHits st.trace =
       st.blocked + countHits (toolPhaseSt (processToolCalls cfg tool tcs st)).trace) ∧
    (∀ st', processToolCalls cfg tool tcs st = .lockedP st' →
       st'.blocked = cfg.maxBlockedCommands ∧
       st'.trace.getLast? = some AgentEvent.blockedHit) ∧
    (∀ st', processToolCalls cfg tool tcs st = .contP st' →
       st'.blocked < cfg.maxBlockedCommands) := by
  intro tcs
  induction tcs with
  | nil =>
    intro st hlt
    refine ⟨rfl, fun st' h => ?_, fun st' h => ?_⟩
    · exact absurd h (by simp [processToolCalls])
    · have : st = st' := by
        have := h
        simp only [processToolCalls] at this
        injection this
      rw [← this]
      exact hlt
  | cons tc rest ih =>
    intro st hlt
    by_cases hB : (!(tool st.toolIdx).success &&
        containsBLOCKED (tool st.toolIdx).error) = true
    · by_cases hth : st.blocked + 1 ≥ cfg.maxBlockedCommands
      · have heq : processToolCalls cfg tool (tc :: rest) st =
            .lockedP ⟨st.messages, st.blocked + 1, st.llmIdx, st.toolIdx + 1,
              st.iter, st.trace ++ [.blockedHit]⟩ := by
          simp only [processToolCalls]
          rw [if_pos hB, if_pos hth]
        rw [heq]
        refine ⟨?_, fun st' h => ?_, fun st' h => ?_⟩
        · simp only [toolPhaseSt, countHits_append]
          simp only [countHits]
          omega
        · injection h with h
          rw [← h]
          refine ⟨show st.blocked + 1 = cfg.maxBlockedCommands by omega, ?_⟩
          exact getLast_append_one st.trace .blockedHit
        · exact absurd h (by simp)
      · have heq : processToolCalls cfg tool (tc :: rest) st =
            processToolCalls cfg tool rest
              (appendToolMsg cfg
                ⟨st.messages, st.blocked + 1, st.llmIdx, st.toolIdx + 1,
                  st.iter, st.trace ++ [.blockedHit]⟩ tc (tool st.toolIdx)) := by
          simp only [processToolCalls]
          rw [if_pos hB, if_neg hth]
        have hb2 : (appendToolMsg cfg
            ⟨st.messages, st.blocked + 1, st.llmIdx, st.toolIdx + 1,
              st.iter, st.trace ++ [.blockedHit]⟩ tc (tool st.toolIdx)).blocked =
            st.blocked + 1 := rfl
        have ht2 : (appendToolMsg cfg
            ⟨st.messages, st.blocked + 1, st.llmIdx, st.toolIdx + 1,
              st.iter, st.trace ++ [.blockedHit]⟩ tc (tool st.toolIdx)).trace =
            st.trace ++ [.blockedHit] := rfl
        have hih := ih (appendToolMsg cfg
            ⟨st.messages, st.blocked + 1, st.llmIdx, st.toolIdx + 1,
              st.iter, st.trace ++ [.blockedHit]⟩ tc (tool st.toolIdx))
          (by rw [hb2]; omega)
        rw [heq]
        refine ⟨?_, hih.2.1, hih.2.2⟩
        have h1 := hih.1
        rw [hb2, ht2, countHits_append] at h1
        simp only [countHits] at h1
        omega
    · have heq : processToolCalls cfg tool (tc :: rest) st =
          processToolCalls cfg tool rest
            (appendToolMsg cfg
              ⟨st.messages, st.blocked, st.llmIdx, st.toolIdx + 1,
                st.iter, st.trace⟩ tc (tool st.toolIdx)) := by
        simp only [processToolCalls]
        rw [if_neg hB]
      have hb2 : (appendToolMsg cfg
          ⟨st.messages, st.blocked, st.llmIdx, st.toolIdx + 1,
            st.iter, st.trace⟩ tc (tool st.toolIdx)).blocked = st.blocked := rfl
      have ht2 : (appendToolMsg cfg
          ⟨st.messages, st.blocked, st.llmIdx, st.toolIdx + 1,
            st.iter, st.trace⟩ tc (tool st.toolIdx)).trace = st.trace := rfl
      have hih := ih (appendToolMsg cfg
          ⟨st.messages, st.blocked, st.llmIdx, st.toolIdx + 1,
            st.iter, st.trace⟩ tc (tool st.toolIdx)) (by rw [hb2]; exact hlt)
      rw [heq]
      refine ⟨?_, hih.2.1, hih.2.2⟩
      have h1 := hih.1
      rw [hb2, ht2] at h1
      exact h1

/-- Invariants of the iteration loop, starting strictly below the lockout
threshold: the blocked counter grows by exactly the number of blocked-hit
events in the trace, and a lockout result carries a counter exactly at the
threshold with a blocked hit as the final event (in particular no
model-gateway call after it). -/
theorem loop_spec (cfg : AgentConfig) (llm : Nat → LLMResult)
    (tool : Nat → ToolResult) :
    ∀ (fuel : Nat) (st : LoopSt), st.blocked < cfg.maxBlockedCommands →
    ((loopOutSt (agentLoop cfg llm tool fuel st)).blocked + countHits st.trace =
       st.blocked + countHits (loopOutSt (agentLoop cfg llm tool fuel st)).trace) ∧
    (∀ st', agentLoop cfg llm tool fuel st = .lockedOut st' →
       st'.blocked = cfg.maxBlockedCommands ∧
       st'.trace.getLast? = some AgentEvent.blockedHit) := by
  intro fuel
  induction fuel with
  | zero =>
    intro st hlt
    exact ⟨rfl, fun st' h => LoopOut.noConfusion h⟩
  | succ fuel ih =>
    intro st hlt
    cases hllm : llm st.llmIdx with
    | llmError e =>
      have heq : agentLoop cfg llm tool (fuel + 1) st =
          .gatewayError e ⟨st.messages, st.blocked, st.llmIdx + 1, st.toolIdx,
            st.iter + 1, st.trace ++ [.gatewayCall]⟩ := by
        simp only [agentLoop, hllm]
      rw [heq]
      refine ⟨?_, fun st' h => LoopOut.noConfusion h⟩
      simp only [loopOutSt, countHits_append, countHits]
      omega
    | noChoices =>
      have heq : agentLoop cfg llm tool (fuel + 1) st =
          .noChoice ⟨st.messages, st.blocked, st.llmIdx + 1, st.toolIdx,
            st.iter + 1, st.trace ++ [.gatewayCall]⟩ := by
        simp only [agentLoop, hllm]
      rw [heq]
      refine ⟨?_, fun st' h => LoopOut.noConfusion h⟩
      simp only [loopOutSt, countHits_append, countHits]
      omega
    | assistant content tcs =>
      cases tcs with
      | nil =>
        have heq : agentLoop cfg llm tool (fuel + 1) st =
            .finished content
              ⟨st.messages ++ [⟨"assistant", content, [], ""⟩], st.blocked,
                st.llmIdx + 1, st.toolIdx, st.iter + 1,
                st.trace ++ [.gatewayCall]⟩ := by
          simp only [agentLoop, hllm]
        rw [heq]
        refine ⟨?_, fun st' h => LoopOut.noConfusion h⟩
        simp only [loopOutSt, countHits_append, countHits]
        omega
      | cons tc more =>
        have hspec := ptc_spec cfg tool (tc :: more)
          ⟨st.messages ++ [⟨"assistant", content, tc :: more, ""⟩], st.blocked,
            st.llmIdx + 1, st.toolIdx, st.iter + 1, st.trace ++ [.gatewayCall]⟩
          hlt
        cases hp : processToolCalls cfg tool (tc :: more)
            ⟨st.messages ++ [⟨"assistant", content, tc :: more, ""⟩], st.blocked,
              st.llmIdx + 1, st.toolIdx, st.iter + 1,
              st.trace ++ [.gatewayCall]⟩ with
        | lockedP st2 =>
          have heq : agentLoop cfg llm tool (fuel + 1) st = .lockedOut st2 := by
            simp only [agentLoop, hllm, hp]
          rw [heq]
          have hadd := hspec.1
          rw [hp] at hadd
          simp only [toolPhaseSt, countHits_append, countHits] at hadd
          refine ⟨?_, fun st' h => ?_⟩
          · simp only [loopOutSt]
            omega
          · injection h with h
            rw [← h]
            exact hspec.2.1 st2 hp
        | contP st2 =>
          have heq : agentLoop cfg llm tool (fuel + 1) st =
              agentLoop cfg llm tool fuel st2 := by
            simp only [agentLoop, hllm, hp]
          rw [heq]
          have hlt2 := hspec.2.2 st2 hp
          have hadd := hspec.1
          rw [hp] at hadd
          simp only [toolPhaseSt, countHits_append, countHits] at hadd
          have hih := ih st2 hlt2
          refine ⟨?_, hih.2⟩
          have h1 := hih.1
          omega

/-- C4: in a run whose session starts strictly below
`max_blocked_commands`, the persisted blocked counter is the starting value
plus one increment per security-blocked tool result; and if the run ends in
the lockout, `run_agent` returns the lockout message, leaves the counter
exactly at `max_blocked_commands`, and the final event of the run is the
blocked hit — no model-gateway call is issued after it. -/
theorem C4_lockout (cfg : AgentConfig) (msgSize : Msg → Nat)
    (cleanResp : String → String) (llm : Nat → LLMResult)
    (tool : Nat → ToolResult) (session : AgentSession) (sys user : String)
    (hstart : session.blockedCount < cfg.maxBlockedCommands) :
    ((runAgent cfg msgSize cleanResp llm tool session sys user).blockedCount =
      session.blockedCount +
        countHits (runAgent cfg msgSize cleanResp llm tool session sys user).trace) ∧
    ((runAgent cfg msgSize cleanResp llm tool session sys user).kind = .lockedK →
      (runAgent cfg msgSize cleanResp llm tool session sys user).response = lockoutMsg ∧
      (runAgent cfg msgSize cleanResp llm tool session sys user).blockedCount =
        cfg.maxBlockedCommands ∧
      (runAgent cfg msgSize cleanResp llm tool session sys user).trace.getLast? =
        some AgentEvent.blockedHit) := by
  have hspec := loop_spec cfg llm tool cfg.maxIterations
    ⟨(⟨"system", sys, [], ""⟩ : Msg) ::
      trim_history msgSize (session.history ++ [⟨"user", user, [], ""⟩])
        cfg.maxContextMessages 50000,
     session.blockedCount, 0, 0, 0, []⟩ hstart
  cases hE : agentLoop cfg llm tool cfg.maxIterations
      ⟨(⟨"system", sys, [], ""⟩ : Msg) ::
        trim_history msgSize (session.history ++ [⟨"user", user, [], ""⟩])
          cfg.maxContextMessages 50000,
       session.blockedCount, 0, 0, 0, []⟩ with
  | gatewayError e stf =>
    rw [hE] at hspec
    simp only [loopOutSt, countHits] at hspec
    simp only [runAgent, hE]
    exact ⟨by omega, fun h => RunKind.noConfusion h⟩
  | noChoice stf =>
    rw [hE] at hspec
    simp only [loopOutSt, countHits] at hspec
    simp only [runAgent, hE]
    exact ⟨by omega, fun h => RunKind.noConfusion h⟩
  | lockedOut stf =>
    rw [hE] at hspec
    simp only [loopOutSt, countHits] at hspec
    have hlock := hspec.2 stf rfl
    simp only [runAgent, hE]
    exact ⟨by omega, fun _ => ⟨by trivial, hlock.1, hlock.2⟩⟩
  | finished content stf =>
    rw [hE] at hspec
    simp only [loopOutSt, countHits] at hspec
    simp only [runAgent, hE]
    exact ⟨by omega, fun h => RunKind.noConfusion h⟩

/-- C4 witness: with `max_blocked_commands = 1` and a tool oracle that
reports a security block, the run locks out after one gateway call, returns
the lockout message and leaves the counter at the threshold. -/
theorem C4_lockout_witness :
    (0 < 1) ∧
    (runAgent ⟨2, 1, 100, 40, 10⟩ (fun _ => 0) (fun s => s)
      (fun _ => .assistant "" [⟨"1", "run_command", "args"⟩])
      (fun _ => ⟨false, "", "BLOCKED"⟩) ⟨[], 0⟩ "sys" "hi").response = lockoutMsg ∧
    (runAgent ⟨2, 1, 100, 40, 10⟩ (fun _ => 0) (fun s => s)
      (fun _ => .assistant "" [⟨"1", "run_command", "args"⟩])
      (fun _ => ⟨false, "", "BLOCKED"⟩) ⟨[], 0⟩ "sys" "hi").blockedCount = 1 := by
  have h := C4_lockout ⟨2, 1, 100, 40, 10⟩ (fun _ => 0) (fun s => s)
    (fun _ => .assistant "" [⟨"1", "run_command", "args"⟩])
    (fun _ => ⟨false, "", "BLOCKED"⟩) ⟨[], 0⟩ "sys" "hi" (by decide)
  have hk : (runAgent ⟨2, 1, 100, 40, 10⟩ (fun _ => 0) (fun s => s)
      (fun _ => .assistant "" [⟨"1", "run_command", "args"⟩])
      (fun _ => ⟨false, "", "BLOCKED"⟩) ⟨[], 0⟩ "sys" "hi").kind = .lockedK := by
    decide
  exact ⟨by decide, (h.2 hk).1, (h.2 hk).2.1⟩

/-- C9: when a run aborts on a fatal path — a model-gateway error or the
blocked-command lockout — `run_agent` returns the error or lockout text and
the persisted session history is exactly as it was when the run started; in
particular the inbound user message is not recorded. -/
theorem C9_fatal_preserves_history (cfg : AgentConfig) (msgSize : Msg → Nat)
    (cleanResp : String → String) (llm : Nat → LLMResult)
    (tool : Nat → ToolResult) (session : AgentSession) (sys user : String) :
    ((runAgent cfg msgSize cleanResp llm tool session sys user).kind = .gatewayErrorK →
      (runAgent cfg msgSize cleanResp llm tool session sys user).history =
        session.history ∧
      ∃ e, (runAgent cfg msgSize cleanResp llm tool session sys user).response =
        "Error: " ++ e) ∧
    ((runAgent cfg msgSize cleanResp llm tool session sys user).kind = .lockedK →
      (runAgent cfg msgSize cleanResp llm tool session sys user).history =
        session.history ∧
      (runAgent cfg msgSize cleanResp llm tool session sys user).response =
        lockoutMsg) := by
  cases hE : agentLoop cfg llm tool cfg.maxIterations
      ⟨(⟨"system", sys, [], ""⟩ : Msg) ::
        trim_history msgSize (session.history ++ [⟨"user", user, [], ""⟩])
          cfg.maxContextMessages 50000,
       session.blockedCount, 0, 0, 0, []⟩ with
  | gatewayError e stf =>
    simp only [runAgent, hE]
    exact ⟨fun _ => ⟨by trivial, ⟨e, by trivial⟩⟩, fun h => RunKind.noConfusion h⟩
  | noChoice stf =>
    simp only [runAgent, hE]
    exact ⟨fun h => RunKind.noConfusion h, fun h => RunKind.noConfusion h⟩
  | lockedOut stf =>
    simp only [runAgent, hE]
    exact ⟨fun h => RunKind.noConfusion h, fun _ => ⟨by trivial, by trivial⟩⟩
  | finished content stf =>
    simp only [runAgent, hE]
    exact ⟨fun h => RunKind.noConfusion h, fun h => RunKind.noConfusion h⟩

/-- C9 witness: a gateway error leaves the (empty) starting history
untouched and returns the error text. -/
theorem C9_fatal_preserves_history_witness :
    (runAgent ⟨3, 10, 100, 40, 10⟩ (fun _ => 0) (fun s => s)
      (fun _ => .llmError "boom") (fun _ => ⟨true, "ok", ""⟩)
      ⟨[], 0⟩ "sys" "hi").kind = .gatewayErrorK ∧
    (runAgent ⟨3, 10, 100, 40, 10⟩ (fun _ => 0) (fun s => s)
      (fun _ => .llmError "boom") (fun _ => ⟨true, "ok", ""⟩)
      ⟨[], 0⟩ "sys" "hi").history = [] := by
  have h := C9_fatal_preserves_history ⟨3, 10, 100, 40, 10⟩ (fun _ => 0) (fun s => s)
    (fun _ => .llmError "boom") (fun _ => ⟨true, "ok", ""⟩) ⟨[], 0⟩ "sys" "hi"
  have hk : (runAgent ⟨3, 10, 100, 40, 10⟩ (fun _ => 0) (fun s => s)
      (fun _ => .llmError "boom") (fun _ => ⟨true, "ok", ""⟩)
      ⟨[], 0⟩ "sys" "hi").kind = .gatewayErrorK := by decide
  exact ⟨hk, (h.1 hk).1⟩

end Topsha
